import Mathlib

/-!
Verification of the audio-fingerprinting core: a shallow embedding of the
spectrogram builder (`src/backend/src/spectogram.js`, `createSpectogram`) and
the peak detector (`src/backend/src/peakfinder.js`, `findPeaks`), together
with proofs of the specified properties.

Modelling conventions:
* JS numbers appearing in the peak detector are modelled by `ℚ` (the detector
  only compares values); spectrogram amplitudes produced by the builder are
  modelled by `Option ℝ`, where `none` stands for the IEEE non-values
  (NaN/Infinity) that JS arithmetic can produce.
* JS array indexing `a[i]`, which yields `undefined` out of bounds, is
  modelled by `listGetJS : List α → ℤ → Option α`.
* The external FFT kernel is an abstract function parameter `transform`
  (the spec treats it as an injected external capability).
* A JS `for` loop whose index can fail to reach the bound is modelled with
  explicit fuel; the case where the loop provably never terminates
  (`hopSize ≤ 0` with frames remaining) is the `diverges` result.
-/

set_option autoImplicit false

namespace AudioFP

/-! ### JS array access -/

/-- Access `l[k]` with JS semantics: an out-of-range or negative index
yields `undefined`, modelled as `none`. -/
def listGetJS {α : Type} (l : List α) (k : ℤ) : Option α :=
  if 0 ≤ k then l[k.toNat]? else none

/-! ### Peak detector (`findPeaks` in `peakfinder.js`) -/

/-- A detected peak, mirroring the object `\x7b time: t, freq: f, amplitude: value \x7d`
pushed by `findPeaks`. -/
structure Landmark where
  time : ℤ
  freq : ℤ
  amplitude : ℚ
  deriving DecidableEq, Repr

/-- Cell access `spectrogram[t][f]` with JS semantics.  A missing row or a
column outside the row yields `none` (JS `undefined`). -/
def getCell (s : List (List ℚ)) (t f : ℤ) : Option ℚ :=
  (listGetJS s t).bind fun row => listGetJS row f

/-- Row length `spectrogram[t].length`; only read by `findPeaks` for `t` inside
the scanned time range, where the row exists. -/
def rowLen (s : List (List ℚ)) (t : ℤ) : ℤ :=
  match listGetJS s t with
  | some row => row.length
  | none => 0

/-- Integers from `a` to `b` inclusive, the index sequence of a JS loop
`for (let x = a; x <= b; x++)`. -/
def intRange (a b : ℤ) : List ℤ :=
  (List.range (b + 1 - a).toNat).map fun k : ℕ => a + (k : ℤ)

/-- One neighbor comparison of `findPeaks`: the guard
`spectrogram[t + dt][f + df] >= value`.  A missing cell (`undefined`)
compares false, hence never disqualifies. -/
def disqualifies (s : List (List ℚ)) (value : ℚ) (t f dt df : ℤ) : Bool :=
  match getCell s (t + dt) (f + df) with
  | some w => decide (value ≤ w)
  | none => false

/-- Offsets `(dt, df)` enumerated by the nested neighbor loops of `findPeaks`,
in source order (the pair `(0, 0)` is included and skipped inside the loop
body, as in the source). -/
def offsetList (timeN freqN : ℕ) : List (ℤ × ℤ) :=
  (intRange (-(timeN : ℤ)) timeN).flatMap fun dt =>
    (intRange (-(freqN : ℤ)) freqN).map fun df => (dt, df)

/-- The neighbor scan of `findPeaks` with its early exit: the loop conditions
`dt <= timeNeighborhood && isPeak` and `df <= freqNeighborhood && isPeak`
stop the scan as soon as `isPeak` has become `false`. -/
def neighborScan (s : List (List ℚ)) (value : ℚ) (t f : ℤ) :
    List (ℤ × ℤ) → Bool → Bool
  | [], isPeak => isPeak
  | p :: rest, isPeak =>
    if isPeak then
      neighborScan s value t f rest
        (if p.1 = 0 ∧ p.2 = 0 then isPeak
         else if disqualifies s value t f p.1 p.2 then false else isPeak)
    else isPeak

/-- Body of the scan over one candidate `(t, f)`: the threshold test sets
`isPeak`, the neighborhood scan runs only when `isPeak` still holds (starting
from `true`), and the landmark is pushed only if `isPeak` survived; the
boolean threading of the source is rendered as nested conditionals.  A JS
candidate read out of range (`value === undefined`) fails `value > threshold`
and is never pushed, hence the `none` arm. -/
def peakAt (s : List (List ℚ)) (timeN freqN : ℕ) (threshold : ℚ) (t f : ℤ) :
    Option Landmark :=
  match getCell s t f with
  | none => none
  | some value =>
    if threshold < value then
      if neighborScan s value t f (offsetList timeN freqN) true then
        some ⟨t, f, value⟩
      else none
    else none

/-- Candidate coordinates visited by the two scan loops of `findPeaks`:
`t` from `timeNeighborhood` while `t < spectrogram.length - timeNeighborhood`,
and `f` from `minFreq` while
`f < Math.min(maxFreq, spectrogram[t].length - freqNeighborhood)`. -/
def scanPairs (s : List (List ℚ)) (minFreq maxFreq : ℤ) (timeN freqN : ℕ) :
    List (ℤ × ℤ) :=
  (intRange timeN ((s.length : ℤ) - timeN - 1)).flatMap fun t =>
    (intRange minFreq (min maxFreq (rowLen s t - freqN) - 1)).map fun f => (t, f)

/-- The peak detector `findPeaks(spectrogram, minFreq, maxFreq,
[timeNeighborhood, freqNeighborhood], threshold)`. -/
def findPeaks (s : List (List ℚ)) (minFreq maxFreq : ℤ) (timeN freqN : ℕ)
    (threshold : ℚ) : List Landmark :=
  (scanPairs s minFreq maxFreq timeN freqN).filterMap fun p =>
    peakAt s timeN freqN threshold p.1 p.2

/-! ### Spectrogram builder (`createSpectogram` in `spectogram.js`)

Builder amplitudes are `Option ℝ`: `some x` is an ordinary finite JS number,
`none` is a non-value (NaN, or an infinity, whose propagation through the
operations used here coincides with NaN propagation). -/

/-- JS multiplication lifted to possibly-NaN operands. -/
noncomputable def jsMul (a b : Option ℝ) : Option ℝ :=
  a.bind fun x => b.map fun y => x * y

/-- JS addition lifted to possibly-NaN operands. -/
noncomputable def jsAdd (a b : Option ℝ) : Option ℝ :=
  a.bind fun x => b.map fun y => x + y

/-- JS `Math.sqrt`: NaN on a non-value or a negative argument. -/
noncomputable def jsSqrt (a : Option ℝ) : Option ℝ :=
  a.bind fun x => if x < 0 then none else some (Real.sqrt x)

/-- JS division `x / y` followed by any use inside `Math.cos`: when the
denominator is zero the quotient is NaN or an infinity, and the cosine of
either is NaN, so the whole expression is a non-value. -/
noncomputable def jsDivOpt (x y : ℝ) : Option ℝ :=
  if y = 0 then none else some (x / y)

/-- Coefficient `i` of the Hamming window computed by `createSpectogram`:
`0.54 - 0.46 * Math.cos(2 * Math.PI * i / (windowSize - 1))`. -/
noncomputable def hammingCoeff (windowSize i : ℕ) : Option ℝ :=
  (jsDivOpt (2 * Real.pi * i) ((windowSize : ℝ) - 1)).map fun q =>
    0.54 - 0.46 * Real.cos q

/-- The Hamming window array of `createSpectogram`, built by the loop
`for (let i = 0; i < windowSize; i++)`. -/
noncomputable def hammingWindowJS (windowSize : ℕ) : List (Option ℝ) :=
  (List.range windowSize).map (hammingCoeff windowSize)

/-- Index sequence of the frame loop
`for (let i = 0; i < audioData.length - windowSize; i += hopSize)`, with
explicit fuel; `(bound - i).toNat` units of fuel suffice whenever
`hopSize ≥ 1`. -/
def loopStarts (fuel : ℕ) (i bound hopSize : ℤ) : List ℤ :=
  match fuel with
  | 0 => []
  | fuel + 1 =>
    if i < bound then i :: loopStarts fuel (i + hopSize) bound hopSize else []

/-- One iteration of the frame loop: window the slice at `i`, hand it to the
external transform, and take magnitudes `Math.sqrt(re*re + im*im)` of the
first `windowSize / 2` complex bins. -/
noncomputable def processFrame (audioData : List ℝ) (windowSize : ℤ)
    (transform : List (Option ℝ) → List (Option ℝ)) (i : ℤ) : List (Option ℝ) :=
  let windowData : List (Option ℝ) :=
    (List.range windowSize.toNat).map fun j : ℕ =>
      jsMul (listGetJS audioData (i + (j : ℤ)))
        ((listGetJS (hammingWindowJS windowSize.toNat) (j : ℤ)).join)
  let spectrum := transform windowData
  (List.range (windowSize.toNat / 2)).map fun j : ℕ =>
    jsSqrt (jsAdd
      (jsMul ((listGetJS spectrum (2 * (j : ℤ))).join) ((listGetJS spectrum (2 * (j : ℤ))).join))
      (jsMul ((listGetJS spectrum (2 * (j : ℤ) + 1)).join)
        ((listGetJS spectrum (2 * (j : ℤ) + 1)).join)))

/-- Outcome of a `createSpectogram` call.  `throwsRangeError` models the
`RangeError` raised by a typed-array constructor (`new Float32Array(n)` with
`n` negative or non-integral); `diverges` models a frame loop that never
terminates. -/
inductive BuildResult where
  | ok (rows : List (List (Option ℝ)))
  | throwsRangeError
  | diverges

/-- The builder `createSpectogram(audioData, sampleRate, windowSize, hopSize)`
with the external FFT kernel abstracted as `transform`.  Behavior by cases,
following the source: a negative `windowSize` makes
`new Float32Array(windowSize)` throw before any frame; an odd `windowSize`
makes `new Float32Array(windowSize / 2)` throw while the first frame is
processed (so only when at least one frame start exists); a non-positive
`hopSize` with at least one frame start leaves the loop index forever below
the bound; otherwise every frame start `0 ≤ i < audioData.length - windowSize`
stepping by `hopSize` contributes one magnitude row. -/
noncomputable def createSpectogram (audioData : List ℝ) (sampleRate : ℤ)
    (windowSize hopSize : ℤ)
    (transform : List (Option ℝ) → List (Option ℝ)) : BuildResult :=
  if windowSize < 0 then .throwsRangeError
  else if 0 < (audioData.length : ℤ) - windowSize ∧ windowSize % 2 ≠ 0 then
    .throwsRangeError
  else if 0 < (audioData.length : ℤ) - windowSize ∧ hopSize ≤ 0 then .diverges
  else .ok ((loopStarts ((audioData.length : ℤ) - windowSize).toNat 0
    ((audioData.length : ℤ) - windowSize) hopSize).map
    (processFrame audioData windowSize transform))

/-- Count of the integers `start` with `0 ≤ start < L - W` lying on the hop
grid (multiples of `H`): the row count stated by the frame count law. -/
def specFrameCount (L W H : ℤ) : ℕ :=
  ((List.range (L - W).toNat).filter fun s : ℕ => decide ((s : ℤ) % H = 0)).length

/-! ### Lemmas about the peak detector -/

theorem mem_intRange {a b x : ℤ} : x ∈ intRange a b ↔ a ≤ x ∧ x ≤ b := by
  simp only [intRange, List.mem_map, List.mem_range]
  constructor
  · rintro ⟨k, hk, rfl⟩
    omega
  · rintro ⟨h1, h2⟩
    exact ⟨(x - a).toNat, by omega, by omega⟩

theorem intRange_nodup (a b : ℤ) : (intRange a b).Nodup := by
  unfold intRange
  refine List.Nodup.map ?_ (List.nodup_range _)
  intro x y h
  dsimp only at h
  omega

theorem neighborScan_false (s : List (List ℚ)) (value : ℚ) (t f : ℤ)
    (l : List (ℤ × ℤ)) : neighborScan s value t f l false = false := by
  cases l with
  | nil => rfl
  | cons p rest => simp [neighborScan]

theorem neighborScan_true_iff (s : List (List ℚ)) (value : ℚ) (t f : ℤ)
    (l : List (ℤ × ℤ)) :
    neighborScan s value t f l true = true ↔
      ∀ p ∈ l, ¬(p.1 = 0 ∧ p.2 = 0) → disqualifies s value t f p.1 p.2 = false := by
  induction l with
  | nil => simp [neighborScan]
  | cons p rest ih =>
    by_cases h0 : p.1 = 0 ∧ p.2 = 0
    · have hstep : neighborScan s value t f (p :: rest) true =
          neighborScan s value t f rest true := by
        simp [neighborScan, h0]
      rw [hstep, ih]
      constructor
      · intro h q hq hq0
        rcases List.mem_cons.mp hq with rfl | hq'
        · exact absurd h0 hq0
        · exact h q hq' hq0
      · intro h q hq hq0
        exact h q (List.mem_cons_of_mem _ hq) hq0
    · by_cases hd : disqualifies s value t f p.1 p.2 = true
      · have hstep : neighborScan s value t f (p :: rest) true = false := by
          simp [neighborScan, h0, hd, neighborScan_false]
        rw [hstep]
        constructor
        · intro habs
          exact absurd habs (by simp)
        · intro h
          have hc := h p (List.mem_cons_self p rest) h0
          rw [hd] at hc
          exact absurd hc (by simp)
      · have hd' : disqualifies s value t f p.1 p.2 = false := by
          simpa using hd
        have hstep : neighborScan s value t f (p :: rest) true =
            neighborScan s value t f rest true := by
          simp [neighborScan, h0, hd']
        rw [hstep, ih]
        constructor
        · intro h q hq hq0
          rcases List.mem_cons.mp hq with rfl | hq'
          · exact hd'
          · exact h q hq' hq0
        · intro h q hq hq0
          exact h q (List.mem_cons_of_mem _ hq) hq0

theorem disqualifies_eq_false_iff (s : List (List ℚ)) (value : ℚ)
    (t f dt df : ℤ) :
    disqualifies s value t f dt df = false ↔
      ∀ w, getCell s (t + dt) (f + df) = some w → w < value := by
  unfold disqualifies
  cases h : getCell s (t + dt) (f + df) with
  | none => simp
  | some w =>
    simp only [decide_eq_false_iff_not, not_le]
    constructor
    · intro hw w' hw'
      cases hw'
      exact hw
    · intro hall
      exact hall w rfl

theorem mem_offsetList {timeN freqN : ℕ} {p : ℤ × ℤ} :
    p ∈ offsetList timeN freqN ↔
      -(timeN : ℤ) ≤ p.1 ∧ p.1 ≤ timeN ∧ -(freqN : ℤ) ≤ p.2 ∧ p.2 ≤ freqN := by
  cases p with
  | mk dt df =>
    simp only [offsetList, List.mem_flatMap, List.mem_map]
    constructor
    · rintro ⟨dt', hdt', df', hdf', h⟩
      cases h
      rw [mem_intRange] at hdt' hdf'
      exact ⟨hdt'.1, hdt'.2, hdf'.1, hdf'.2⟩
    · rintro ⟨h1, h2, h3, h4⟩
      exact ⟨dt, mem_intRange.mpr ⟨h1, h2⟩, df, mem_intRange.mpr ⟨h3, h4⟩, rfl⟩

/-- Characterization of one candidate test: `peakAt` yields a landmark exactly
when the cell exists, exceeds the threshold, and no existing neighbor within
the `(timeN, freqN)` box (other than the point itself) reaches its value. -/
theorem peakAt_eq_some_iff (s : List (List ℚ)) (timeN freqN : ℕ)
    (threshold : ℚ) (t f : ℤ) (lm : Landmark) :
    peakAt s timeN freqN threshold t f = some lm ↔
      ∃ value, getCell s t f = some value ∧ threshold < value ∧
        (∀ dt df : ℤ, -(timeN : ℤ) ≤ dt → dt ≤ timeN → -(freqN : ℤ) ≤ df →
          df ≤ freqN → ¬(dt = 0 ∧ df = 0) →
          ∀ w, getCell s (t + dt) (f + df) = some w → w < value) ∧
        lm = ⟨t, f, value⟩ := by
  unfold peakAt
  cases hc : getCell s t f with
  | none => simp
  | some value =>
    dsimp only
    have hok : (∀ p ∈ offsetList timeN freqN, ¬(p.1 = 0 ∧ p.2 = 0) →
        disqualifies s value t f p.1 p.2 = false) ↔
        (∀ dt df : ℤ, -(timeN : ℤ) ≤ dt → dt ≤ timeN → -(freqN : ℤ) ≤ df →
          df ≤ freqN → ¬(dt = 0 ∧ df = 0) →
          ∀ w, getCell s (t + dt) (f + df) = some w → w < value) := by
      constructor
      · intro h dt df h1 h2 h3 h4 h5 w hw
        have hmem : ((dt, df) : ℤ × ℤ) ∈ offsetList timeN freqN :=
          mem_offsetList.mpr ⟨h1, h2, h3, h4⟩
        exact (disqualifies_eq_false_iff s value t f dt df).mp (h _ hmem h5) w hw
      · intro h p hp hp0
        rw [mem_offsetList] at hp
        rw [disqualifies_eq_false_iff]
        exact h p.1 p.2 hp.1 hp.2.1 hp.2.2.1 hp.2.2.2 hp0
    by_cases hthr : threshold < value
    · rw [if_pos hthr]
      by_cases hscan : neighborScan s value t f (offsetList timeN freqN) true = true
      · rw [if_pos hscan]
        rw [neighborScan_true_iff] at hscan
        constructor
        · intro h
          cases h
          exact ⟨value, rfl, hthr, hok.mp hscan, rfl⟩
        · rintro ⟨v, hv, _, _, rfl⟩
          cases hv
          rfl
      · rw [if_neg hscan]
        constructor
        · intro h
          exact absurd h (by simp)
        · rintro ⟨v, hv, _, hall, rfl⟩
          cases hv
          exact absurd ((neighborScan_true_iff _ _ _ _ _).mpr (hok.mpr hall)) hscan
    · rw [if_neg hthr]
      constructor
      · intro h
        exact absurd h (by simp)
      · rintro ⟨v, hv, hthr', _, rfl⟩
        cases hv
        exact absurd hthr' hthr

theorem mem_scanPairs {s : List (List ℚ)} {minFreq maxFreq : ℤ}
    {timeN freqN : ℕ} {p : ℤ × ℤ} :
    p ∈ scanPairs s minFreq maxFreq timeN freqN ↔
      (timeN : ℤ) ≤ p.1 ∧ p.1 < (s.length : ℤ) - timeN ∧
      minFreq ≤ p.2 ∧ p.2 < min maxFreq (rowLen s p.1 - freqN) := by
  cases p with
  | mk t f =>
    simp only [scanPairs, List.mem_flatMap, List.mem_map]
    constructor
    · rintro ⟨t', ht', f', hf', h⟩
      cases h
      rw [mem_intRange] at ht' hf'
      exact ⟨ht'.1, by omega, hf'.1, by omega⟩
    · rintro ⟨h1, h2, h3, h4⟩
      exact ⟨t, mem_intRange.mpr ⟨h1, by omega⟩, f,
        mem_intRange.mpr ⟨h3, by omega⟩, rfl⟩

/-- Full membership characterization for `findPeaks`: a landmark is produced
exactly for in-region coordinates whose amplitude is the cell value, exceeds
the threshold, and strictly dominates every existing neighbor in the box. -/
theorem mem_findPeaks_iff {s : List (List ℚ)} {minFreq maxFreq : ℤ}
    {timeN freqN : ℕ} {threshold : ℚ} {lm : Landmark} :
    lm ∈ findPeaks s minFreq maxFreq timeN freqN threshold ↔
      (timeN : ℤ) ≤ lm.time ∧ lm.time < (s.length : ℤ) - timeN ∧
      minFreq ≤ lm.freq ∧ lm.freq < min maxFreq (rowLen s lm.time - freqN) ∧
      getCell s lm.time lm.freq = some lm.amplitude ∧
      threshold < lm.amplitude ∧
      (∀ dt df : ℤ, -(timeN : ℤ) ≤ dt → dt ≤ timeN → -(freqN : ℤ) ≤ df →
        df ≤ freqN → ¬(dt = 0 ∧ df = 0) →
        ∀ w, getCell s (lm.time + dt) (lm.freq + df) = some w →
          w < lm.amplitude) := by
  unfold findPeaks
  rw [List.mem_filterMap]
  constructor
  · rintro ⟨p, hp, hpk⟩
    rw [peakAt_eq_some_iff] at hpk
    obtain ⟨v, hv, hthr, hall, rfl⟩ := hpk
    rw [mem_scanPairs] at hp
    exact ⟨hp.1, hp.2.1, hp.2.2.1, hp.2.2.2, hv, hthr, hall⟩
  · rintro ⟨h1, h2, h3, h4, h5, h6, h7⟩
    refine ⟨(lm.time, lm.freq), mem_scanPairs.mpr ⟨h1, h2, h3, h4⟩, ?_⟩
    rw [peakAt_eq_some_iff]
    exact ⟨lm.amplitude, h5, h6, h7, rfl⟩

theorem scanPairs_nodup (s : List (List ℚ)) (minFreq maxFreq : ℤ)
    (timeN freqN : ℕ) : (scanPairs s minFreq maxFreq timeN freqN).Nodup := by
  unfold scanPairs
  rw [List.nodup_flatMap]
  constructor
  · intro t _
    refine List.Nodup.map ?_ (intRange_nodup _ _)
    intro x y h
    cases h
    rfl
  · have hnd := intRange_nodup (timeN : ℤ) ((s.length : ℤ) - timeN - 1)
    refine hnd.imp ?_
    intro t t' hne p hp hp'
    simp only [Function.comp, List.mem_map] at hp hp'
    obtain ⟨f, _, rfl⟩ := hp
    obtain ⟨f', _, h⟩ := hp'
    exact hne (congrArg Prod.fst h).symm

theorem findPeaks_nodup (s : List (List ℚ)) (minFreq maxFreq : ℤ)
    (timeN freqN : ℕ) (threshold : ℚ) :
    (findPeaks s minFreq maxFreq timeN freqN threshold).Nodup := by
  unfold findPeaks
  refine List.Nodup.filterMap ?_ (scanPairs_nodup s minFreq maxFreq timeN freqN)
  intro p p' lm hlm hlm'
  rw [Option.mem_def, peakAt_eq_some_iff] at hlm hlm'
  obtain ⟨v, _, _, _, rfl⟩ := hlm
  obtain ⟨v', _, _, _, h⟩ := hlm'
  cases p
  cases p'
  cases h
  rfl

theorem eq_singleton_of_nodup_mem {α : Type} {l : List α} {x : α}
    (hnd : l.Nodup) (hx : x ∈ l) (hall : ∀ y ∈ l, y = x) : l = [x] := by
  induction l with
  | nil => cases hx
  | cons a l ih =>
    have hax : a = x := hall a (List.mem_cons_self a l)
    subst hax
    have hnil : l = [] := by
      cases l with
      | nil => rfl
      | cons b l' =>
        have hba : b = a := hall b (List.mem_cons_of_mem _ (List.mem_cons_self _ _))
        subst hba
        exact absurd (List.mem_cons_self b l')
          (by simpa using (List.nodup_cons.mp hnd).1)
    rw [hnil]

/-- Bridge from the JS-semantics cell access to plain bounded indexing:
a cell exists exactly at nonnegative coordinates inside both the spectrogram
and its own row. -/
theorem getCell_eq_some_iff {s : List (List ℚ)} {t f : ℤ} {w : ℚ} :
    getCell s t f = some w ↔
      ∃ ti fi : ℕ, t = (ti : ℤ) ∧ f = (fi : ℤ) ∧ ti < s.length ∧
        fi < (s.getD ti []).length ∧ (s.getD ti []).getD fi 0 = w := by
  unfold getCell listGetJS
  constructor
  · intro h
    by_cases ht : 0 ≤ t
    · rw [if_pos ht] at h
      cases hrow : s[t.toNat]? with
      | none => rw [hrow] at h; cases h
      | some row =>
        rw [hrow] at h
        simp only [Option.some_bind] at h
        by_cases hf : 0 ≤ f
        · rw [if_pos hf] at h
          have htl : t.toNat < s.length ∧ s.getD t.toNat [] = row := by
            rcases List.getElem?_eq_some_iff.mp hrow with ⟨hlt, hget⟩
            refine ⟨hlt, ?_⟩
            rw [List.getD_eq_getElem?_getD, hrow]
            rfl
          have hfl : f.toNat < row.length ∧ row.getD f.toNat 0 = w := by
            rcases List.getElem?_eq_some_iff.mp h with ⟨hlt, hget⟩
            refine ⟨hlt, ?_⟩
            rw [List.getD_eq_getElem?_getD, h]
            rfl
          exact ⟨t.toNat, f.toNat, by omega, by omega, htl.1,
            by rw [htl.2]; exact hfl.1, by rw [htl.2]; exact hfl.2⟩
        · rw [if_neg hf] at h
          cases h
    · rw [if_neg ht] at h
      cases h
  · rintro ⟨ti, fi, rfl, rfl, hti, hfi, hw⟩
    rw [if_pos (by omega : (0:ℤ) ≤ (ti : ℤ))]
    have h1 : ((ti : ℤ)).toNat = ti := by omega
    rw [h1]
    have hrow : s[ti]? = some (s.getD ti []) := by
      rw [List.getD_eq_getElem?_getD]
      rcases List.getElem?_eq_some_iff.mpr ⟨hti, rfl⟩ with h
      rw [h]
      rfl
    rw [hrow]
    simp only [Option.some_bind]
    rw [if_pos (by omega : (0:ℤ) ≤ (fi : ℤ))]
    have h2 : ((fi : ℤ)).toNat = fi := by omega
    rw [h2]
    rw [List.getElem?_eq_some_iff]
    exact ⟨hfi, by rw [← hw, List.getD_eq_getElem _ _ hfi]⟩

/-! ### Claims about the peak detector -/

/-- Claim C1: a triple `(t, f, a)` is returned by the peak detector iff `t` and `f`
lie in the scan region, `a` is the value of the cell and exceeds the
threshold, and every existing neighbor in the `(timeN, freqN)` box other than
the point itself is strictly smaller; in particular two horizontally
(time-adjacent) or vertically (frequency-adjacent) cells with identical
values yield a landmark for neither — a tie disqualifies both. -/
theorem C1_peak_characterization_and_tie (s : List (List ℚ))
    (minFreq maxFreq : ℤ) (timeN freqN : ℕ) (threshold : ℚ) :
    (∀ t f : ℤ, ∀ a : ℚ,
      Landmark.mk t f a ∈ findPeaks s minFreq maxFreq timeN freqN threshold ↔
        ((timeN : ℤ) ≤ t ∧ t < (s.length : ℤ) - timeN ∧
         minFreq ≤ f ∧ f < min maxFreq (rowLen s t - freqN) ∧
         getCell s t f = some a ∧ threshold < a ∧
         (∀ dt df : ℤ, -(timeN : ℤ) ≤ dt → dt ≤ timeN → -(freqN : ℤ) ≤ df →
           df ≤ freqN → ¬(dt = 0 ∧ df = 0) →
           ∀ w, getCell s (t + dt) (f + df) = some w → w < a)))
    ∧ (∀ t f : ℤ, ∀ a b : ℚ, 1 ≤ timeN →
        getCell s t f = some a → getCell s (t + 1) f = some a →
        Landmark.mk t f b ∉ findPeaks s minFreq maxFreq timeN freqN threshold ∧
        Landmark.mk (t + 1) f b ∉ findPeaks s minFreq maxFreq timeN freqN threshold)
    ∧ (∀ t f : ℤ, ∀ a b : ℚ, 1 ≤ freqN →
        getCell s t f = some a → getCell s t (f + 1) = some a →
        Landmark.mk t f b ∉ findPeaks s minFreq maxFreq timeN freqN threshold ∧
        Landmark.mk t (f + 1) b ∉ findPeaks s minFreq maxFreq timeN freqN threshold) := by
  refine ⟨fun t f a => mem_findPeaks_iff, ?_, ?_⟩
  · intro t f a b htN h1 h2
    constructor
    · intro hmem
      rw [mem_findPeaks_iff] at hmem
      obtain ⟨_, _, _, _, hcell, _, hnb⟩ := hmem
      rw [h1] at hcell
      injection hcell with hba
      subst hba
      have := hnb 1 0 (by omega) (by omega) (by omega) (by omega)
        (by intro hx; exact absurd hx.1 one_ne_zero) a (by rw [add_zero]; exact h2)
      exact absurd this (lt_irrefl a)
    · intro hmem
      rw [mem_findPeaks_iff] at hmem
      obtain ⟨_, _, _, _, hcell, _, hnb⟩ := hmem
      rw [h2] at hcell
      injection hcell with hba
      subst hba
      have := hnb (-1) 0 (by omega) (by omega) (by omega) (by omega)
        (by intro hx; omega) a
        (by rw [add_zero, show t + 1 + -1 = t from by ring]; exact h1)
      exact absurd this (lt_irrefl a)
  · intro t f a b hfN h1 h2
    constructor
    · intro hmem
      rw [mem_findPeaks_iff] at hmem
      obtain ⟨_, _, _, _, hcell, _, hnb⟩ := hmem
      rw [h1] at hcell
      injection hcell with hba
      subst hba
      have := hnb 0 1 (by omega) (by omega) (by omega) (by omega)
        (by intro hx; exact absurd hx.2 one_ne_zero) a (by rw [add_zero]; exact h2)
      exact absurd this (lt_irrefl a)
    · intro hmem
      rw [mem_findPeaks_iff] at hmem
      obtain ⟨_, _, _, _, hcell, _, hnb⟩ := hmem
      rw [h2] at hcell
      injection hcell with hba
      subst hba
      have := hnb 0 (-1) (by omega) (by omega) (by omega) (by omega)
        (by intro hx; omega) a
        (by rw [add_zero, show f + 1 + -1 = f from by ring]; exact h1)
      exact absurd this (lt_irrefl a)

/-- Witness for C1 on a concrete tie: two frequency-adjacent cells of value 7
suppress each other. -/
theorem C1_tie_witness :
    Landmark.mk 1 1 7 ∉ findPeaks [[0,0,0,0],[0,7,7,0],[0,0,0,0]] 0 10 1 1 1 ∧
    Landmark.mk 1 2 7 ∉ findPeaks [[0,0,0,0],[0,7,7,0],[0,0,0,0]] 0 10 1 1 1 :=
  (C1_peak_characterization_and_tie [[0,0,0,0],[0,7,7,0],[0,0,0,0]] 0 10 1 1 1).2.2
    1 1 7 7 (by decide) (by decide) (by decide)

/-- Spec-worded variant of the detector for C8: the candidate test is the
declarative predicate "exceeds the threshold, and no neighbor in the full
neighborhood box disqualifies it", with the neighbor condition evaluated over
the whole box rather than with the early exit of the implementation. -/
def findPeaksDecl (s : List (List ℚ)) (minFreq maxFreq : ℤ)
    (timeN freqN : ℕ) (threshold : ℚ) : List Landmark :=
  (scanPairs s minFreq maxFreq timeN freqN).filterMap fun p =>
    match getCell s p.1 p.2 with
    | none => none
    | some value =>
      if threshold < value ∧ ∀ q ∈ offsetList timeN freqN,
          ¬(q.1 = 0 ∧ q.2 = 0) → disqualifies s value p.1 p.2 q.1 q.2 = false then
        some ⟨p.1, p.2, value⟩
      else none

/-- Claim C8: the early-exit neighbor scan of the implementation returns exactly
the landmarks of the declarative no-disqualifying-neighbor predicate. -/
theorem C8_early_exit_refinement (s : List (List ℚ)) (minFreq maxFreq : ℤ)
    (timeN freqN : ℕ) (threshold : ℚ) :
    findPeaks s minFreq maxFreq timeN freqN threshold =
      findPeaksDecl s minFreq maxFreq timeN freqN threshold := by
  unfold findPeaks findPeaksDecl
  congr 1
  funext p
  cases hc : getCell s p.1 p.2 with
  | none => simp [peakAt, hc]
  | some value =>
    unfold peakAt
    rw [hc]
    dsimp only
    by_cases hthr : threshold < value
    · by_cases hall : ∀ q ∈ offsetList timeN freqN,
          ¬(q.1 = 0 ∧ q.2 = 0) → disqualifies s value p.1 p.2 q.1 q.2 = false
      · rw [if_pos hthr, if_pos ((neighborScan_true_iff _ _ _ _ _).mpr hall),
          if_pos ⟨hthr, hall⟩]
      · rw [if_pos hthr, if_neg (fun h => hall ((neighborScan_true_iff _ _ _ _ _).mp h)),
          if_neg (fun h => hall h.2)]
    · rw [if_neg hthr, if_neg (fun h => hthr h.1)]

/-- Claim C10: a neighbor coordinate that indexes no cell (outside a ragged row, or
below zero) never disqualifies a candidate — the JS comparison against
`undefined` is false — and a candidate whose existing neighbors are all
strictly smaller still qualifies even when adjacent rows are too short to
hold the full neighborhood. -/
theorem C10_missing_neighbor_safe :
    (∀ (s : List (List ℚ)) (value : ℚ) (t f dt df : ℤ),
      getCell s (t + dt) (f + df) = none →
      disqualifies s value t f dt df = false)
    ∧ (∀ (s : List (List ℚ)) (minFreq maxFreq : ℤ) (timeN freqN : ℕ)
        (threshold : ℚ) (t f : ℤ) (a : ℚ),
        (timeN : ℤ) ≤ t → t < (s.length : ℤ) - timeN →
        minFreq ≤ f → f < min maxFreq (rowLen s t - freqN) →
        getCell s t f = some a → threshold < a →
        (∀ q ∈ offsetList timeN freqN, ¬(q.1 = 0 ∧ q.2 = 0) →
          disqualifies s a t f q.1 q.2 = false) →
        Landmark.mk t f a ∈ findPeaks s minFreq maxFreq timeN freqN threshold) := by
  constructor
  · intro s value t f dt df h
    unfold disqualifies
    rw [h]
  · intro s minF maxF tN fN thr t f a h1 h2 h3 h4 h5 h6 h7
    rw [mem_findPeaks_iff]
    refine ⟨h1, h2, h3, h4, h5, h6, ?_⟩
    intro dt df hb1 hb2 hb3 hb4 hb5 w hw
    have hq := h7 (dt, df) (mem_offsetList.mpr ⟨hb1, hb2, hb3, hb4⟩) hb5
    exact (disqualifies_eq_false_iff _ _ _ _ _ _).mp hq w hw

/-- Witness for C10 on a ragged spectrogram: row 0 has length 1, so the
offsets (-1, 0) and (-1, +1) from the candidate (1, 1) index no cell, yet
the candidate still becomes a landmark. -/
theorem C10_missing_neighbor_witness :
    Landmark.mk 1 1 8 ∈ findPeaks [[1], [0, 8, 0], [0, 0, 0]] 0 100 1 1 1 :=
  C10_missing_neighbor_safe.2 [[1], [0, 8, 0], [0, 0, 0]] 0 100 1 1 1 1 1 8
    (by decide) (by decide) (by decide) (by decide) (by decide) (by decide)
    (by decide)

/-- Counterexample for C4: on a ragged spectrogram (row 0 of length 1) the
detector returns the landmark (1, 1, 9) although the neighborhood offset
`(dt, df) = (-1, +1)` does not index an existing cell, refuting the claim
that every landmark has a full neighborhood of existing cells. -/
theorem C4_counterexample_missing_neighbor_cell :
    Landmark.mk 1 1 9 ∈ findPeaks [[0], [0, 9, 0], [0, 0, 0]] 0 100 1 1 1 ∧
    getCell [[0], [0, 9, 0], [0, 0, 0]] (1 + (-1)) (1 + 1) = none :=
  ⟨by decide, by decide⟩

/-- Amended claim C4: every landmark returned by the detector satisfies
`timeN ≤ t < rowCount - timeN` and
`minFreqBin ≤ f < min(maxFreqBin, rowLength(t) - freqN)`, and every time
offset `t + dt` with `|dt| ≤ timeN` indexes an existing row; but frequency
offsets may fall outside a ragged neighboring row (or below zero when
`minFreqBin < freqN`), so not every cell of the neighborhood need exist. -/
theorem C4_landmark_interior_bounds (s : List (List ℚ)) (minFreq maxFreq : ℤ)
    (timeN freqN : ℕ) (threshold : ℚ) (lm : Landmark)
    (h : lm ∈ findPeaks s minFreq maxFreq timeN freqN threshold) :
    (timeN : ℤ) ≤ lm.time ∧ lm.time < (s.length : ℤ) - timeN ∧
    minFreq ≤ lm.freq ∧ lm.freq < min maxFreq (rowLen s lm.time - freqN) ∧
    ∀ dt : ℤ, -(timeN : ℤ) ≤ dt → dt ≤ timeN →
      (listGetJS s (lm.time + dt)).isSome = true := by
  rw [mem_findPeaks_iff] at h
  obtain ⟨h1, h2, h3, h4, _, _, _⟩ := h
  refine ⟨h1, h2, h3, h4, ?_⟩
  intro dt hd1 hd2
  unfold listGetJS
  rw [if_pos (by omega : (0:ℤ) ≤ lm.time + dt)]
  rw [List.getElem?_eq_getElem (by omega : (lm.time + dt).toNat < s.length)]
  rfl

/-- Witness for the amended C4 at a concrete landmark. -/
theorem C4_landmark_interior_bounds_witness :
    (1 : ℤ) ≤ (Landmark.mk 1 1 9).time ∧
    (listGetJS ([[0,0,0],[0,9,0],[0,0,0]] : List (List ℚ))
      ((Landmark.mk 1 1 9).time + (-1))).isSome = true :=
  have h := C4_landmark_interior_bounds [[0,0,0],[0,9,0],[0,0,0]] 0 100 1 1 1
    ⟨1, 1, 9⟩ (by decide)
  ⟨h.1, h.2.2.2.2 (-1) (by decide) (by decide)⟩

/-- Counterexample for C5: a spectrogram whose only cell exceeds the threshold
and (vacuously) strictly dominates its whole neighborhood, yet with the
default parameters the detector returns no landmark at all, because the cell
sits outside the scanned interior region. -/
theorem C5_counterexample_boundary_spike :
    getCell [[9]] 0 0 = some 9 ∧ (1 : ℚ) < 9 ∧
    ([[9]] : List (List ℚ)).length = 1 ∧ ([9] : List ℚ).length = 1 ∧
    findPeaks [[9]] 30 300 3 3 1 = [] :=
  ⟨by decide, by decide, rfl, rfl, by decide⟩

/-- Amended claim C5: if the spectrogram has exactly one cell above the
threshold, and that cell lies inside the scanned region, the detector
returns exactly the one landmark carrying that cell's coordinates and
amplitude. -/
theorem C5_single_spike_dominance (s : List (List ℚ)) (minFreq maxFreq : ℤ)
    (timeN freqN : ℕ) (threshold : ℚ) (t0 f0 : ℕ) (a : ℚ)
    (hcell : getCell s t0 f0 = some a)
    (hthr : threshold < a)
    (hr1 : (timeN : ℤ) ≤ t0) (hr2 : (t0 : ℤ) < (s.length : ℤ) - timeN)
    (hr3 : minFreq ≤ f0) (hr4 : (f0 : ℤ) < min maxFreq (rowLen s t0 - freqN))
    (hunique : ∀ ti : ℕ, ti < s.length → ∀ fi : ℕ,
      fi < (s.getD ti []).length →
      ¬(ti = t0 ∧ fi = f0) → (s.getD ti []).getD fi 0 ≤ threshold) :
    findPeaks s minFreq maxFreq timeN freqN threshold = [⟨t0, f0, a⟩] := by
  have hdom : ∀ t f : ℤ, ∀ w : ℚ, getCell s t f = some w →
      ¬(t = (t0 : ℤ) ∧ f = (f0 : ℤ)) → w ≤ threshold := by
    intro t f w hw hne
    rcases getCell_eq_some_iff.mp hw with ⟨ti, fi, rfl, rfl, hti, hfi, hv⟩
    rw [← hv]
    refine hunique ti hti fi hfi ?_
    rintro ⟨hti0, hfi0⟩
    exact hne ⟨by rw [hti0], by rw [hfi0]⟩
  have hmem : Landmark.mk t0 f0 a ∈
      findPeaks s minFreq maxFreq timeN freqN threshold := by
    rw [mem_findPeaks_iff]
    refine ⟨hr1, hr2, hr3, hr4, hcell, hthr, ?_⟩
    intro dt df hb1 hb2 hb3 hb4 hb5 w hw
    have hne : ¬((t0 : ℤ) + dt = (t0 : ℤ) ∧ (f0 : ℤ) + df = (f0 : ℤ)) := by
      rintro ⟨hx, hy⟩
      exact hb5 ⟨by omega, by omega⟩
    exact lt_of_le_of_lt (hdom _ _ w hw hne) hthr
  have hall : ∀ lm ∈ findPeaks s minFreq maxFreq timeN freqN threshold,
      lm = Landmark.mk t0 f0 a := by
    intro lm hlm
    rw [mem_findPeaks_iff] at hlm
    obtain ⟨_, _, _, _, hc, ht, _⟩ := hlm
    by_cases hne : lm.time = (t0 : ℤ) ∧ lm.freq = (f0 : ℤ)
    · obtain ⟨he1, he2⟩ := hne
      rw [he1, he2, hcell] at hc
      injection hc with hc
      cases lm with
      | mk lt lf la =>
        simp only at he1 he2 hc
        rw [he1, he2, hc]
    · exact absurd ht (not_lt.mpr (hdom _ _ _ hc hne))
  exact eq_singleton_of_nodup_mem
    (findPeaks_nodup s minFreq maxFreq timeN freqN threshold) hmem hall

/-- Witness for the amended C5: a centered single spike is returned as the
unique landmark. -/
theorem C5_single_spike_witness :
    findPeaks [[0,0,0],[0,9,0],[0,0,0]] 0 100 1 1 1 = [⟨1, 1, 9⟩] :=
  C5_single_spike_dominance [[0,0,0],[0,9,0],[0,0,0]] 0 100 1 1 1 1 1 9
    (by decide) (by decide) (by decide) (by decide) (by decide) (by decide)
    (by decide)

/-! ### Lemmas about the spectrogram builder -/

/-- Length of the frame loop: with a positive hop and enough fuel, the loop
from `i` up to `bound` runs `⌈(bound - i)⁺ / hop⌉` times. -/
theorem loopStarts_length (hopSize : ℤ) (hH : 1 ≤ hopSize) :
    ∀ (fuel : ℕ) (i bound : ℤ), (bound - i).toNat ≤ fuel →
      (loopStarts fuel i bound hopSize).length =
        ((bound - i).toNat + (hopSize.toNat - 1)) / hopSize.toNat := by
  intro fuel
  induction fuel with
  | zero =>
    intro i bound hf
    have h0 : (bound - i).toNat = 0 := by omega
    rw [h0]
    show ([] : List ℤ).length = (0 + (hopSize.toNat - 1)) / hopSize.toNat
    rw [List.length_nil, Nat.zero_add]
    exact (Nat.div_eq_of_lt (by omega)).symm
  | succ fuel ih =>
    intro i bound hf
    unfold loopStarts
    by_cases hib : i < bound
    · rw [if_pos hib]
      rw [List.length_cons]
      rw [ih (i + hopSize) bound (by omega)]
      have hm1 : 1 ≤ (bound - i).toNat := by omega
      have hrw : (bound - i).toNat + (hopSize.toNat - 1) =
          ((bound - i).toNat - 1) + hopSize.toNat := by omega
      rw [hrw, Nat.add_div_right _ (by omega)]
      by_cases hcase : hopSize.toNat ≤ (bound - i).toNat
      · have he : (bound - (i + hopSize)).toNat =
            (bound - i).toNat - hopSize.toNat := by omega
        rw [he]
        have he2 : (bound - i).toNat - hopSize.toNat + (hopSize.toNat - 1) =
            (bound - i).toNat - 1 := by omega
        rw [he2]
      · have he : (bound - (i + hopSize)).toNat = 0 := by omega
        rw [he, Nat.zero_add]
        have e1 : (hopSize.toNat - 1) / hopSize.toNat = 0 :=
          Nat.div_eq_of_lt (by omega)
        have e2 : ((bound - i).toNat - 1) / hopSize.toNat = 0 :=
          Nat.div_eq_of_lt (by omega)
        rw [e1, e2]
    · rw [if_neg hib]
      rw [List.length_nil]
      have h0 : (bound - i).toNat = 0 := by omega
      rw [h0, Nat.zero_add]
      exact (Nat.div_eq_of_lt (by omega)).symm

/-- Count of hop-grid multiples below `n`: the numbers `0, H, 2H, …` in
`[0, n)` number `⌈n / H⌉`. -/
theorem multiples_count (H : ℤ) (hH : 1 ≤ H) :
    ∀ n : ℕ, ((List.range n).filter fun s : ℕ => decide ((s : ℤ) % H = 0)).length =
      (n + (H.toNat - 1)) / H.toNat := by
  intro n
  induction n with
  | zero =>
    rw [List.range_zero, List.filter_nil, List.length_nil, Nat.zero_add]
    exact (Nat.div_eq_of_lt (by omega)).symm
  | succ n ih =>
    rw [List.range_succ, List.filter_append, List.length_append, ih]
    have hHh : H = (H.toNat : ℤ) := by omega
    obtain ⟨q, r, hr, hn⟩ : ∃ q r, r < H.toNat ∧ n = H.toNat * q + r :=
      ⟨n / H.toNat, n % H.toNat, Nat.mod_lt _ (by omega),
        (Nat.div_add_mod n H.toNat).symm⟩
    have hmod : (n : ℤ) % H = ((n % H.toNat : ℕ) : ℤ) := by
      rw [hHh]
      exact (Int.natCast_mod n H.toNat).symm
    have hnr : n % H.toNat = r := by
      rw [hn, Nat.mul_add_mod]
      exact Nat.mod_eq_of_lt hr
    by_cases hr0 : r = 0
    · have hdvd : (n : ℤ) % H = 0 := by rw [hmod, hnr, hr0]; rfl
      rw [List.filter_cons, List.filter_nil]
      rw [if_pos (by simpa using hdvd)]
      rw [List.length_cons, List.length_nil, Nat.zero_add]
      have he1 : n + (H.toNat - 1) = H.toNat * q + (H.toNat - 1) := by omega
      have hexp : H.toNat * (q + 1) = H.toNat * q + H.toNat := by ring
      have he2 : n + 1 + (H.toNat - 1) = H.toNat * (q + 1) := by
        rw [hexp]; omega
      rw [he1, he2, Nat.mul_add_div (by omega),
        Nat.mul_div_cancel_left _ (by omega)]
      have e1 : (H.toNat - 1) / H.toNat = 0 := Nat.div_eq_of_lt (by omega)
      rw [e1, Nat.add_zero]
    · have hdvd : ¬((n : ℤ) % H = 0) := by
        rw [hmod, hnr]
        intro hc
        exact hr0 (by exact_mod_cast hc)
      rw [List.filter_cons, List.filter_nil]
      rw [if_neg (by simpa using hdvd)]
      rw [List.length_nil, Nat.add_zero]
      have he1 : n + (H.toNat - 1) = H.toNat * q + (r + (H.toNat - 1)) := by omega
      have he2 : n + 1 + (H.toNat - 1) = H.toNat * q + (r + H.toNat) := by omega
      rw [he1, he2, Nat.mul_add_div (by omega), Nat.mul_add_div (by omega)]
      have e1 : (r + (H.toNat - 1)) / H.toNat = 1 := by
        have hup : r + (H.toNat - 1) = (r - 1) + H.toNat := by omega
        rw [hup, Nat.add_div_right _ (by omega)]
        rw [Nat.div_eq_of_lt (by omega)]
      have e2 : (r + H.toNat) / H.toNat = 1 := by
        rw [Nat.add_div_right _ (by omega), Nat.div_eq_of_lt (by omega)]
      rw [e1, e2]

/-! ### Claims about the spectrogram builder -/

/-- Claim C2: under the builder's preconditions (positive even window, positive
hop) the spectrogram has exactly one row per integer `start` with
`0 ≤ start < L - W` on the hop grid — the frame at `start = L - W` is
excluded by the strict bound — and for `L ≤ W` the result is the empty
spectrogram, not an error. -/
theorem C2_frame_count_law (audioData : List ℝ) (sampleRate : ℤ)
    (windowSize hopSize : ℤ)
    (transform : List (Option ℝ) → List (Option ℝ))
    (hW : 0 < windowSize) (hWeven : windowSize % 2 = 0) (hH : 0 < hopSize) :
    ∃ rows, createSpectogram audioData sampleRate windowSize hopSize transform =
        .ok rows ∧
      rows.length = specFrameCount (audioData.length) windowSize hopSize ∧
      ((audioData.length : ℤ) ≤ windowSize → rows = []) := by
  unfold createSpectogram
  rw [if_neg (by omega)]
  rw [if_neg (by rintro ⟨-, hodd⟩; exact hodd hWeven)]
  rw [if_neg (by omega)]
  refine ⟨_, rfl, ?_, ?_⟩
  · rw [List.length_map]
    have hl := loopStarts_length hopSize (by omega)
      ((audioData.length : ℤ) - windowSize).toNat 0
      ((audioData.length : ℤ) - windowSize)
      (by rw [sub_zero])
    rw [sub_zero] at hl
    rw [hl]
    unfold specFrameCount
    rw [multiples_count hopSize (by omega)]
  · intro hLW
    have h0 : ((audioData.length : ℤ) - windowSize).toNat = 0 := by omega
    rw [h0]
    rfl

/-- Witness for C2: five samples, window 2, hop 2 give two rows (starts 0
and 2; the start 3 = L - W is excluded). -/
theorem C2_frame_count_witness :
    ∃ rows, createSpectogram [(0:ℝ), 0, 0, 0, 0] 44100 2 2 (fun _ => []) =
        .ok rows ∧ rows.length = 2 :=
  have h := C2_frame_count_law [(0:ℝ), 0, 0, 0, 0] 44100 2 2 (fun _ => [])
    (by norm_num) (by norm_num) (by norm_num)
  have hcount : specFrameCount (([(0:ℝ), 0, 0, 0, 0].length : ℤ)) 2 2 = 2 := by
    decide
  ⟨h.choose, h.choose_spec.1, by rw [h.choose_spec.2.1, hcount]⟩

/-- Counterexample for C3: with the odd window size 3 (and a buffer shorter than
the window) the builder raises nothing and returns an empty spectrogram, so
no configuration error is reported eagerly for invalid parameters. -/
theorem C3_counterexample_no_config_error :
    createSpectogram [(0:ℝ), 0] 44100 3 1 (fun _ => []) = .ok [] := by
  rfl

/-- Amended claim C3: the builder performs no eager parameter validation and
raises no configuration error.  With `samples.length ≤ windowSize` it returns
an empty spectrogram regardless of parity or hop; with a non-positive hop,
an even window and frames remaining the loop never terminates; with an odd
window and frames remaining a range error occurs only while the first frame
is processed, not before work begins. -/
theorem C3_no_eager_validation (audioData : List ℝ) (sampleRate : ℤ)
    (windowSize hopSize : ℤ)
    (transform : List (Option ℝ) → List (Option ℝ)) :
    (0 ≤ windowSize → (audioData.length : ℤ) ≤ windowSize →
      createSpectogram audioData sampleRate windowSize hopSize transform =
        .ok [])
    ∧ (0 ≤ windowSize → windowSize % 2 = 0 → hopSize ≤ 0 →
        windowSize < (audioData.length : ℤ) →
        createSpectogram audioData sampleRate windowSize hopSize transform =
          .diverges)
    ∧ (windowSize % 2 = 1 → windowSize < (audioData.length : ℤ) →
        createSpectogram audioData sampleRate windowSize hopSize transform =
          .throwsRangeError) := by
  refine ⟨?_, ?_, ?_⟩
  · intro hW hLW
    unfold createSpectogram
    rw [if_neg (by omega)]
    rw [if_neg (by rintro ⟨hb, -⟩; omega)]
    rw [if_neg (by rintro ⟨hb, -⟩; omega)]
    have h0 : ((audioData.length : ℤ) - windowSize).toNat = 0 := by omega
    rw [h0]
    rfl
  · intro hW heven hH hLW
    unfold createSpectogram
    rw [if_neg (by omega)]
    rw [if_neg (by rintro ⟨-, hodd⟩; exact hodd heven)]
    rw [if_pos ⟨by omega, hH⟩]
  · intro hodd hLW
    unfold createSpectogram
    by_cases hWneg : windowSize < 0
    · rw [if_pos hWneg]
    · rw [if_neg hWneg]
      rw [if_pos ⟨by omega, by omega⟩]

/-- Witness for the amended C3: hop 0 with an even window and frames
remaining makes the builder diverge (no configuration error). -/
theorem C3_no_eager_validation_witness :
    createSpectogram [(0:ℝ), 0, 0] 44100 2 0 (fun _ => []) = .diverges :=
  (C3_no_eager_validation [(0:ℝ), 0, 0] 44100 2 0 (fun _ => [])).2.1
    (by norm_num) (by norm_num) (by norm_num) (by decide)

/-- Claim C7: the builder and the detector are pure functions of their inputs:
with the external transform held fixed (itself a function of its input, as
the spec requires), two runs on equal inputs return equal spectrograms and
equal landmark lists. -/
theorem C7_determinism (a1 a2 : List ℝ) (sr1 sr2 W1 W2 H1 H2 : ℤ)
    (transform : List (Option ℝ) → List (Option ℝ))
    (s1 s2 : List (List ℚ)) (mf1 mf2 Mf1 Mf2 : ℤ) (tN1 tN2 fN1 fN2 : ℕ)
    (th1 th2 : ℚ)
    (ha : a1 = a2) (hsr : sr1 = sr2) (hW : W1 = W2) (hH : H1 = H2)
    (hs : s1 = s2) (hmf : mf1 = mf2) (hMf : Mf1 = Mf2) (htN : tN1 = tN2)
    (hfN : fN1 = fN2) (hth : th1 = th2) :
    createSpectogram a1 sr1 W1 H1 transform =
      createSpectogram a2 sr2 W2 H2 transform ∧
    findPeaks s1 mf1 Mf1 tN1 fN1 th1 = findPeaks s2 mf2 Mf2 tN2 fN2 th2 := by
  subst ha
  subst hsr
  subst hW
  subst hH
  subst hs
  subst hmf
  subst hMf
  subst htN
  subst hfN
  subst hth
  exact ⟨rfl, rfl⟩

/-- Witness for C7 at concrete inputs. -/
theorem C7_determinism_witness :
    createSpectogram [(0:ℝ)] 44100 2 1 (fun l => l) =
      createSpectogram [(0:ℝ)] 44100 2 1 (fun l => l) ∧
    findPeaks [[(5:ℚ)]] 0 10 0 0 1 = findPeaks [[(5:ℚ)]] 0 10 0 0 1 :=
  C7_determinism [(0:ℝ)] [(0:ℝ)] 44100 44100 2 2 1 1 (fun l => l)
    [[(5:ℚ)]] [[(5:ℚ)]] 0 0 10 10 0 0 0 0 1 1
    rfl rfl rfl rfl rfl rfl rfl rfl rfl rfl

/-! ### Claims about the window function -/

theorem hammingCoeff_formula {size : ℕ} (h : 1 < size) (i : ℕ) :
    hammingCoeff size i =
      some (0.54 - 0.46 * Real.cos (2 * Real.pi * i / ((size : ℝ) - 1))) := by
  unfold hammingCoeff jsDivOpt
  have h2 : (2 : ℝ) ≤ (size : ℝ) := by exact_mod_cast h
  rw [if_neg (by intro hc; linarith)]
  rfl

theorem hammingWindowJS_one : hammingWindowJS 1 = [none] := by
  unfold hammingWindowJS hammingCoeff jsDivOpt
  rw [show List.range 1 = [0] from rfl, List.map_cons, List.map_nil]
  rw [if_pos (by norm_num)]
  rfl

/-- Claim C6: for any size above 1 the Hamming window has exactly `size`
coefficients, coefficient `i` equals `0.54 - 0.46 * cos(2*pi*i/(size-1))`,
the sequence is symmetric about its midpoint, and every value lies in
`[0.08, 1.0]`. -/
theorem C6_hamming_window_properties (size : ℕ) (h : 1 < size) :
    (hammingWindowJS size).length = size ∧
    (∀ i : ℕ, i < size → (hammingWindowJS size).getD i none =
      some (0.54 - 0.46 * Real.cos (2 * Real.pi * i / ((size : ℝ) - 1)))) ∧
    (∀ i : ℕ, i < size → (hammingWindowJS size).getD i none =
      (hammingWindowJS size).getD (size - 1 - i) none) ∧
    (∀ c ∈ hammingWindowJS size, ∃ x : ℝ,
      c = some x ∧ (0.08 : ℝ) ≤ x ∧ x ≤ 1) := by
  have hlen : (hammingWindowJS size).length = size := by
    unfold hammingWindowJS
    rw [List.length_map, List.length_range]
  have hform : ∀ i : ℕ, i < size → (hammingWindowJS size).getD i none =
      some (0.54 - 0.46 * Real.cos (2 * Real.pi * i / ((size : ℝ) - 1))) := by
    intro i hi
    rw [List.getD_eq_getElem?_getD]
    unfold hammingWindowJS
    rw [List.getElem?_map, List.getElem?_range hi]
    rw [show Option.map (hammingCoeff size) (some i) = some (hammingCoeff size i)
      from rfl]
    rw [Option.getD_some]
    exact hammingCoeff_formula h i
  have hne : (size : ℝ) - 1 ≠ 0 := by
    have h2 : (2 : ℝ) ≤ (size : ℝ) := by exact_mod_cast h
    intro hc
    linarith
  refine ⟨hlen, hform, ?_, ?_⟩
  · intro i hi
    rw [hform i hi, hform (size - 1 - i) (by omega)]
    have hcast : ((size - 1 - i : ℕ) : ℝ) = (size : ℝ) - 1 - (i : ℝ) := by
      have h1 : i ≤ size - 1 := by omega
      have h2 : 1 ≤ size := by omega
      rw [Nat.cast_sub h1, Nat.cast_sub h2, Nat.cast_one]
    rw [hcast]
    have harg : 2 * Real.pi * ((size : ℝ) - 1 - (i : ℝ)) / ((size : ℝ) - 1) =
        2 * Real.pi - 2 * Real.pi * (i : ℝ) / ((size : ℝ) - 1) := by
      field_simp
      ring
    rw [harg, Real.cos_two_pi_sub]
  · intro c hc
    unfold hammingWindowJS at hc
    rw [List.mem_map] at hc
    obtain ⟨i, _, rfl⟩ := hc
    rw [hammingCoeff_formula h i]
    refine ⟨_, rfl, ?_, ?_⟩
    · have hcos := Real.cos_le_one (2 * Real.pi * (i : ℝ) / ((size : ℝ) - 1))
      nlinarith
    · have hcos := Real.neg_one_le_cos (2 * Real.pi * (i : ℝ) / ((size : ℝ) - 1))
      nlinarith

/-- Witness for C6 at size 2. -/
theorem C6_hamming_window_witness : (hammingWindowJS 2).length = 2 :=
  (C6_hamming_window_properties 2 (by norm_num)).1

/-- Counterexample for C9: at size 1 the denominator `size - 1` of the window
formula is zero and the code lets the division propagate — the single
coefficient is the non-value NaN (`none`), not an explicitly defined number
such as 1.0. -/
theorem C9_counterexample_size_one_nan : hammingWindowJS 1 = [none] :=
  hammingWindowJS_one

/-- Amended claim C9: for size 1 the window computation propagates the division
by zero: it yields one coefficient, and that coefficient is the non-value
NaN rather than any ordinary number. -/
theorem C9_size_one_propagates_nan :
    (hammingWindowJS 1).length = 1 ∧
    ∀ x : ℝ, hammingWindowJS 1 ≠ [some x] := by
  constructor
  · rw [hammingWindowJS_one]
    rfl
  · intro x hx
    rw [hammingWindowJS_one] at hx
    injection hx with h1 _
    cases h1

end AudioFP
